import Mathlib

/-!
Verification of the stockMaxWin market-data pipeline (Go sources:
`internal/api` list/kline decoders and retrying transport, `internal/worker`
indicator engine and worker pool).  Go `float64` fields are embedded as `ℚ`
(exact arithmetic over the same formulas), `int`/`int64` as `Int`/`Nat`,
and JSON response bodies as a value tree `Json` (the Go code consumes a
token stream with `encoding/json`; on well-formed input the token walk is
exactly a structural walk of this tree, and truncated-stream `io.EOF`
errors cannot arise at the value level).
-/

namespace StockMaxWin

/-- JSON value tree.  Objects keep their members in wire order and may hold
duplicate keys, exactly as a token stream does. -/
inductive Json where
  | null
  | bool (b : Bool)
  | num (q : ℚ)
  | str (s : String)
  | arr (elems : List Json)
  | obj (members : List (String × Json))

instance : Inhabited Json := ⟨.null⟩

/-- First binding of a key, as `gjson` path lookup returns it. -/
def jlookupFirst (kvs : List (String × Json)) (k : String) : Option Json :=
  match kvs with
  | [] => none
  | (k', v) :: rest => if k' = k then some v else jlookupFirst rest k

/-- Last binding of a key: `encoding/json` struct decoding lets a later
duplicate member overwrite an earlier one. -/
def jlookupLast (kvs : List (String × Json)) (k : String) : Option Json :=
  match kvs with
  | [] => none
  | (k', v) :: rest =>
      match jlookupLast rest k with
      | some v' => some v'
      | none => if k' = k then some v else none

/-- Go `model.StockQuote` (fields read off the composite literal in
`decodeQuoteItem`; `VolumeRatio` is embedded as `volumeRatioVal`). -/
structure StockQuote where
  code : String
  name : String
  mainBusiness : String
  price : ℚ
  changePct : ℚ
  amount : ℚ
  volumeRatioVal : ℚ
  turnoverRate : ℚ
  marketCap : ℚ
  pe : ℚ
  netInflow : ℚ
  mainForceInflow : ℚ
  mainForceOutflow : ℚ
  deriving Repr, DecidableEq

/-- Go `model.StockBrief`. -/
structure StockBrief where
  code : String
  name : String
  deriving Repr, DecidableEq

/-- Go `model.KLine` (`Date`, `Open`, `Close`, `Volume`; `Open` is embedded
as `opn` since `open` is a Lean keyword). -/
structure KLine where
  date : String
  opn : ℚ
  close : ℚ
  volume : Int
  deriving Repr, DecidableEq

instance : Inhabited KLine := ⟨⟨"", 0, 0, 0⟩⟩

/-- Result of one streaming list decode: Go returns
`(total, count, err)` while appending to `*list`; we carry the final
accumulator alongside. -/
structure DecodeResult (α : Type) where
  total : Int
  count : Nat
  list : List α
  error : Option String
  deriving Repr, DecidableEq

/-- A member that cannot unmarshal into a Go `string` struct field:
absent and `null` members leave the zero value, a JSON string is taken as
is, and any other shape is a type error. -/
def strFieldBad (kvs : List (String × Json)) (k : String) : Bool :=
  match jlookupLast kvs k with
  | none => false
  | some .null => false
  | some (.str _) => false
  | some _ => true

/-- A member that cannot unmarshal into a `json.Number` struct field. -/
def numFieldBad (kvs : List (String × Json)) (k : String) : Bool :=
  match jlookupLast kvs k with
  | none => false
  | some .null => false
  | some (.num _) => false
  | some _ => true

/-- Value of a Go `string` struct field (zero value `""` when absent,
`null`, or ill-typed — the ill-typed case is only reached under
`strFieldBad = false` in the decoders). -/
def strFieldD (kvs : List (String × Json)) (k : String) : String :=
  match jlookupLast kvs k with
  | some (.str s) => s
  | _ => ""

/-- Value of a `json.Number` field read through `Float64()` with the
error discarded (Go `v, _ :=` yields `0` when the literal is empty). -/
def numFieldD (kvs : List (String × Json)) (k : String) : ℚ :=
  match jlookupLast kvs k with
  | some (.num q) => q
  | _ => 0

/-- Value of a `json.Number` field read through `Int64()` with the error
discarded: a non-integer literal makes `Int64()` fail, yielding `0`. -/
def intFieldD (kvs : List (String × Json)) (k : String) : Int :=
  match jlookupLast kvs k with
  | some (.num q) => if q.den = 1 then q.num else 0
  | _ => 0

/-- Whether `dec.Decode(&item)` into the thirteen-field quote struct
reports an unmarshal error (Go saves the first per-field type error and
returns it after decoding the object; only its presence matters here). -/
def quoteItemBad (kvs : List (String × Json)) : Bool :=
  numFieldBad kvs "f2" || numFieldBad kvs "f3" || numFieldBad kvs "f6" ||
  numFieldBad kvs "f8" || numFieldBad kvs "f10" || strFieldBad kvs "f12" ||
  strFieldBad kvs "f14" || numFieldBad kvs "f23" || numFieldBad kvs "f20" ||
  numFieldBad kvs "f9" || numFieldBad kvs "f62" || numFieldBad kvs "f184" ||
  numFieldBad kvs "f66"

/-- The `model.StockQuote` built from one decoded item: the
amount recomputation (`volume × 100 × price` when the reported amount is
non-positive and volume and price are positive) and the negative-PE
normalization, exactly as in `decodeQuoteItem`. -/
def quoteRecOf (kvs : List (String × Json)) : StockQuote :=
  let price := numFieldD kvs "f2"
  let vol := intFieldD kvs "f6"
  let amount0 := numFieldD kvs "f23"
  let amount :=
    if amount0 ≤ 0 ∧ 0 < vol ∧ 0 < price then (vol : ℚ) * 100 * price else amount0
  let pe0 := numFieldD kvs "f9"
  { code := strFieldD kvs "f12", name := strFieldD kvs "f14", mainBusiness := "",
    price := price, changePct := numFieldD kvs "f3", amount := amount,
    volumeRatioVal := numFieldD kvs "f10", turnoverRate := numFieldD kvs "f8",
    marketCap := numFieldD kvs "f20", pe := if pe0 < 0 then 0 else pe0,
    netInflow := numFieldD kvs "f62", mainForceInflow := numFieldD kvs "f184",
    mainForceOutflow := numFieldD kvs "f66" }

/-- Go `decodeQuoteItem`: `dec.Decode(&item)` (a JSON `null` is a decode
no-op leaving the zero struct, whose empty `F12` is then skipped; any
non-object non-null value is an error), then the empty-code skip, then
the append of the normalized record. -/
def decodeQuoteItem (j : Json) (list : List StockQuote) :
    Except String (List StockQuote) :=
  match j with
  | .null => .ok list
  | .obj kvs =>
      if quoteItemBad kvs then .error "json: cannot unmarshal quote item"
      else if strFieldD kvs "f12" = "" then .ok list
      else .ok (list ++ [quoteRecOf kvs])
  | _ => .error "json: cannot unmarshal quote item"

/-- The element loop of a `diff` decode: stops at the first item error,
returning the accumulator as appended so far. -/
def decodeQuoteDiffList (items : List Json) (list : List StockQuote) :
    List StockQuote × Option String :=
  match items with
  | [] => (list, none)
  | j :: rest =>
      match decodeQuoteItem j list with
      | .error e => (list, some e)
      | .ok l' => decodeQuoteDiffList rest l'

/-- The `data` object scan of `decodeQuoteListStream`: `total` is decoded
as a `json.Number` (with `Int64()` failure yielding `0`); `diff` accepts
an array, or an object whose keys are discarded, and any other shape is
logged and skipped with the count reset to `0`; other members are skipped
structurally. -/
def decodeQuoteData (dkvs : List (String × Json)) (total : Int) (count : Nat)
    (list : List StockQuote) : DecodeResult StockQuote :=
  match dkvs with
  | [] => ⟨total, count, list, none⟩
  | (k, v) :: rest =>
      if k = "total" then
        match v with
        | .num q => decodeQuoteData rest (if q.den = 1 then q.num else 0) count list
        | .null => decodeQuoteData rest 0 count list
        | _ => ⟨total, count, list, some "json: cannot unmarshal total"⟩
      else if k = "diff" then
        match v with
        | .arr items =>
            match decodeQuoteDiffList items list with
            | (l', some e) => ⟨total, l'.length - list.length, l', some e⟩
            | (l', none) => decodeQuoteData rest total (l'.length - list.length) l'
        | .obj mkvs =>
            match decodeQuoteDiffList (mkvs.map Prod.snd) list with
            | (l', some e) => ⟨total, l'.length - list.length, l', some e⟩
            | (l', none) => decodeQuoteData rest total (l'.length - list.length) l'
        | _ => decodeQuoteData rest total 0 list
      else decodeQuoteData rest total count list

/-- The top-level scan of `decodeQuoteListStream`: members before `data`
are skipped, the first `data` member must be an object, and after its scan
the loop breaks (later members are never read). -/
def decodeQuoteTop (kvs : List (String × Json)) (list : List StockQuote) :
    DecodeResult StockQuote :=
  match kvs with
  | [] => ⟨0, 0, list, none⟩
  | (k, v) :: rest =>
      if k = "data" then
        match v with
        | .obj dkvs => decodeQuoteData dkvs 0 0 list
        | _ => ⟨0, 0, list, some "expected data object"⟩
      else decodeQuoteTop rest list

/-- Go `decodeQuoteListStream` over a well-formed body: the root must be
an object. -/
def decodeQuoteListStream (j : Json) (list : List StockQuote) :
    DecodeResult StockQuote :=
  match j with
  | .obj kvs => decodeQuoteTop kvs list
  | _ => ⟨0, 0, list, some "expected object"⟩

/-- Go `decodeStockListStream` item: the two-field struct decode and the
empty-code skip (the append is inlined in the Go loop; a JSON `null`
element is a decode no-op whose zero struct is then skipped). -/
def decodeStockItem (j : Json) (list : List StockBrief) :
    Except String (List StockBrief) :=
  match j with
  | .null => .ok list
  | .obj kvs =>
      if strFieldBad kvs "f12" || strFieldBad kvs "f14" then
        .error "json: cannot unmarshal brief item"
      else if strFieldD kvs "f12" = "" then .ok list
      else .ok (list ++ [{ code := strFieldD kvs "f12", name := strFieldD kvs "f14" }])
  | _ => .error "json: cannot unmarshal brief item"

/-- Element loop of the brief `diff` decode. -/
def decodeStockDiffList (items : List Json) (list : List StockBrief) :
    List StockBrief × Option String :=
  match items with
  | [] => (list, none)
  | j :: rest =>
      match decodeStockItem j list with
      | .error e => (list, some e)
      | .ok l' => decodeStockDiffList rest l'

/-- The `data` scan of `decodeStockListStream`: unlike the quote decoder,
`diff` must open with `[` — any other shape is the error `expected diff [`. -/
def decodeStockData (dkvs : List (String × Json)) (total : Int) (count : Nat)
    (list : List StockBrief) : DecodeResult StockBrief :=
  match dkvs with
  | [] => ⟨total, count, list, none⟩
  | (k, v) :: rest =>
      if k = "total" then
        match v with
        | .num q => decodeStockData rest (if q.den = 1 then q.num else 0) count list
        | .null => decodeStockData rest 0 count list
        | _ => ⟨total, count, list, some "json: cannot unmarshal total"⟩
      else if k = "diff" then
        match v with
        | .arr items =>
            match decodeStockDiffList items list with
            | (l', some e) => ⟨total, l'.length - list.length, l', some e⟩
            | (l', none) => decodeStockData rest total (l'.length - list.length) l'
        | _ => ⟨total, count, list, some "expected diff array"⟩
      else decodeStockData rest total count list

/-- Top-level scan of `decodeStockListStream`. -/
def decodeStockTop (kvs : List (String × Json)) (list : List StockBrief) :
    DecodeResult StockBrief :=
  match kvs with
  | [] => ⟨0, 0, list, none⟩
  | (k, v) :: rest =>
      if k = "data" then
        match v with
        | .obj dkvs => decodeStockData dkvs 0 0 list
        | _ => ⟨0, 0, list, some "expected data object"⟩
      else decodeStockTop rest list

/-- Go `decodeStockListStream` over a well-formed body. -/
def decodeStockListStream (j : Json) (list : List StockBrief) :
    DecodeResult StockBrief :=
  match j with
  | .obj kvs => decodeStockTop kvs list
  | _ => ⟨0, 0, list, some "expected object"⟩

/-- Number of `diff` members of a `data` object. -/
def diffKeyCount : List (String × Json) → Nat
  | [] => 0
  | (k, _) :: rest => (if k = "diff" then 1 else 0) + diffKeyCount rest

/-- The object value of the first `data` member (the decoders break right
after processing it), when there is one. -/
def dataObjOf : List (String × Json) → Option (List (String × Json))
  | [] => none
  | (k, v) :: rest =>
      if k = "data" then
        match v with
        | .obj d => some d
        | _ => none
      else dataObjOf rest

/-- The first `data` object of the response carries at most one `diff`
member (trivially true when there is no `data` object at all). -/
def atMostOneDiff : Json → Bool
  | .obj kvs =>
      match dataObjOf kvs with
      | some d => decide (diffKeyCount d ≤ 1)
      | none => true
  | _ => true

theorem decodeQuoteItem_extends {j : Json} {l l' : List StockQuote}
    (h : decodeQuoteItem j l = .ok l') : ∃ t, l' = l ++ t := by
  cases j with
  | null =>
      simp only [decodeQuoteItem] at h
      injection h with h
      exact ⟨[], by simp [h]⟩
  | obj kvs =>
      by_cases h1 : quoteItemBad kvs
      · simp [decodeQuoteItem, h1] at h
      · by_cases h2 : strFieldD kvs "f12" = ""
        · simp [decodeQuoteItem, h1, h2] at h
          exact ⟨[], by simp [h]⟩
        · simp [decodeQuoteItem, h1, h2] at h
          exact ⟨[quoteRecOf kvs], by simp [h]⟩
  | bool b => exact Except.noConfusion h
  | num q => exact Except.noConfusion h
  | str s => exact Except.noConfusion h
  | arr xs => exact Except.noConfusion h

theorem decodeQuoteDiffList_extends (items : List Json) :
    ∀ l, ∃ t, (decodeQuoteDiffList items l).1 = l ++ t := by
  induction items with
  | nil => exact fun l => ⟨[], by simp [decodeQuoteDiffList]⟩
  | cons j rest ih =>
      intro l
      cases hitem : decodeQuoteItem j l with
      | error e => exact ⟨[], by simp [decodeQuoteDiffList, hitem]⟩
      | ok l' =>
          obtain ⟨t1, ht1⟩ := decodeQuoteItem_extends hitem
          obtain ⟨t2, ht2⟩ := ih l'
          refine ⟨t1 ++ t2, ?_⟩
          have hstep : decodeQuoteDiffList (j :: rest) l = decodeQuoteDiffList rest l' := by
            simp [decodeQuoteDiffList, hitem]
          rw [hstep, ht2, ht1, List.append_assoc]

theorem decodeQuoteData_noDiff (dkvs : List (String × Json)) :
    ∀ total count list, diffKeyCount dkvs = 0 →
      (decodeQuoteData dkvs total count list).count = count ∧
      (decodeQuoteData dkvs total count list).list = list := by
  induction dkvs with
  | nil => exact fun t c l _ => ⟨rfl, rfl⟩
  | cons kv rest ih =>
      obtain ⟨k, v⟩ := kv
      intro t c l hd
      have hk : ¬ k = "diff" := by
        intro hkk
        simp [diffKeyCount, hkk] at hd
      have hrest : diffKeyCount rest = 0 := by
        simp [diffKeyCount, hk] at hd
        exact hd
      by_cases hkt : k = "total"
      · cases v with
        | null => simpa [decodeQuoteData, hkt] using ih _ _ _ hrest
        | num q => simpa [decodeQuoteData, hkt] using ih _ _ _ hrest
        | bool b => simp [decodeQuoteData, hkt]
        | str s => simp [decodeQuoteData, hkt]
        | arr xs => simp [decodeQuoteData, hkt]
        | obj m => simp [decodeQuoteData, hkt]
      · simpa [decodeQuoteData, hkt, hk] using ih _ _ _ hrest

theorem decodeQuoteData_count (dkvs : List (String × Json)) :
    ∀ total list, diffKeyCount dkvs ≤ 1 →
      (decodeQuoteData dkvs total 0 list).count + list.length =
        (decodeQuoteData dkvs total 0 list).list.length := by
  induction dkvs with
  | nil => intro t l _; simp [decodeQuoteData]
  | cons kv rest ih =>
      obtain ⟨k, v⟩ := kv
      intro t l hd
      by_cases hkd : k = "diff"
      · have hkt : ¬ k = "total" := by simp [hkd]
        have hrest : diffKeyCount rest = 0 := by
          have h1 : (1 : Nat) + diffKeyCount rest ≤ 1 := by
            simpa [diffKeyCount, hkd] using hd
          omega
        cases v with
        | arr items =>
            obtain ⟨tl, htl⟩ := decodeQuoteDiffList_extends items l
            cases hdl : decodeQuoteDiffList items l with
            | mk l' eopt =>
                have htl' : l' = l ++ tl := by rw [hdl] at htl; exact htl
                have hlen : l'.length = l.length + tl.length := by simp [htl']
                cases eopt with
                | some e =>
                    simp only [decodeQuoteData, hkd, hkt, if_false, if_true,
                      ite_true, ite_false, hdl]
                    simp
                    omega
                | none =>
                    obtain ⟨hc, hl⟩ := decodeQuoteData_noDiff rest t
                      (l'.length - l.length) l' hrest
                    simp only [decodeQuoteData, hkd, hkt, hdl]
                    simp [hc, hl]
                    omega
        | obj mkvs =>
            obtain ⟨tl, htl⟩ := decodeQuoteDiffList_extends (mkvs.map Prod.snd) l
            cases hdl : decodeQuoteDiffList (mkvs.map Prod.snd) l with
            | mk l' eopt =>
                have htl' : l' = l ++ tl := by rw [hdl] at htl; exact htl
                have hlen : l'.length = l.length + tl.length := by simp [htl']
                cases eopt with
                | some e =>
                    simp only [decodeQuoteData, hkd, hkt, hdl]
                    simp
                    omega
                | none =>
                    obtain ⟨hc, hl⟩ := decodeQuoteData_noDiff rest t
                      (l'.length - l.length) l' hrest
                    simp only [decodeQuoteData, hkd, hkt, hdl]
                    simp [hc, hl]
                    omega
        | null => simpa [decodeQuoteData, hkd, hkt] using ih _ _ (by omega)
        | bool b => simpa [decodeQuoteData, hkd, hkt] using ih _ _ (by omega)
        | num q => simpa [decodeQuoteData, hkd, hkt] using ih _ _ (by omega)
        | str s => simpa [decodeQuoteData, hkd, hkt] using ih _ _ (by omega)
      · have hrest : diffKeyCount rest ≤ 1 := by
          simpa [diffKeyCount, hkd] using hd
        by_cases hkt : k = "total"
        · cases v with
          | null => simpa [decodeQuoteData, hkt] using ih _ _ hrest
          | num q => simpa [decodeQuoteData, hkt] using ih _ _ hrest
          | bool b => simp [decodeQuoteData, hkt]
          | str s => simp [decodeQuoteData, hkt]
          | arr xs => simp [decodeQuoteData, hkt]
          | obj m => simp [decodeQuoteData, hkt]
        · simpa [decodeQuoteData, hkt, hkd] using ih _ _ hrest

theorem decodeQuoteTop_count (kvs : List (String × Json)) :
    ∀ list, (∀ d, dataObjOf kvs = some d → diffKeyCount d ≤ 1) →
      (decodeQuoteTop kvs list).count + list.length =
        (decodeQuoteTop kvs list).list.length := by
  induction kvs with
  | nil => intro l _; simp [decodeQuoteTop]
  | cons kv rest ih =>
      obtain ⟨k, v⟩ := kv
      intro l hd
      by_cases hk : k = "data"
      · cases v with
        | obj dkvs =>
            have hcnt := hd dkvs (by simp [dataObjOf, hk])
            simpa [decodeQuoteTop, hk] using decodeQuoteData_count dkvs 0 l hcnt
        | null => simp [decodeQuoteTop, hk]
        | bool b => simp [decodeQuoteTop, hk]
        | num q => simp [decodeQuoteTop, hk]
        | str s => simp [decodeQuoteTop, hk]
        | arr xs => simp [decodeQuoteTop, hk]
      · have hd' : ∀ d, dataObjOf rest = some d → diffKeyCount d ≤ 1 := by
          intro d h
          exact hd d (by simpa [dataObjOf, hk] using h)
        simpa [decodeQuoteTop, hk] using ih l hd'

theorem decodeStockItem_extends {j : Json} {l l' : List StockBrief}
    (h : decodeStockItem j l = .ok l') : ∃ t, l' = l ++ t := by
  cases j with
  | null =>
      simp only [decodeStockItem] at h
      injection h with h
      exact ⟨[], by simp [h]⟩
  | obj kvs =>
      by_cases h1 : (strFieldBad kvs "f12" || strFieldBad kvs "f14") = true
      · simp [decodeStockItem, h1] at h
      · by_cases h2 : strFieldD kvs "f12" = ""
        · simp [decodeStockItem, h1, h2] at h
          exact ⟨[], by simp [h]⟩
        · simp [decodeStockItem, h1, h2] at h
          exact ⟨[{ code := strFieldD kvs "f12", name := strFieldD kvs "f14" }],
            by simp [h]⟩
  | bool b => exact Except.noConfusion h
  | num q => exact Except.noConfusion h
  | str s => exact Except.noConfusion h
  | arr xs => exact Except.noConfusion h

theorem decodeStockDiffList_extends (items : List Json) :
    ∀ l, ∃ t, (decodeStockDiffList items l).1 = l ++ t := by
  induction items with
  | nil => exact fun l => ⟨[], by simp [decodeStockDiffList]⟩
  | cons j rest ih =>
      intro l
      cases hitem : decodeStockItem j l with
      | error e => exact ⟨[], by simp [decodeStockDiffList, hitem]⟩
      | ok l' =>
          obtain ⟨t1, ht1⟩ := decodeStockItem_extends hitem
          obtain ⟨t2, ht2⟩ := ih l'
          refine ⟨t1 ++ t2, ?_⟩
          have hstep : decodeStockDiffList (j :: rest) l = decodeStockDiffList rest l' := by
            simp [decodeStockDiffList, hitem]
          rw [hstep, ht2, ht1, List.append_assoc]

theorem decodeStockData_noDiff (dkvs : List (String × Json)) :
    ∀ total count list, diffKeyCount dkvs = 0 →
      (decodeStockData dkvs total count list).count = count ∧
      (decodeStockData dkvs total count list).list = list := by
  induction dkvs with
  | nil => exact fun t c l _ => ⟨rfl, rfl⟩
  | cons kv rest ih =>
      obtain ⟨k, v⟩ := kv
      intro t c l hd
      have hk : ¬ k = "diff" := by
        intro hkk
        simp [diffKeyCount, hkk] at hd
      have hrest : diffKeyCount rest = 0 := by
        simp [diffKeyCount, hk] at hd
        exact hd
      by_cases hkt : k = "total"
      · cases v with
        | null => simpa [decodeStockData, hkt] using ih _ _ _ hrest
        | num q => simpa [decodeStockData, hkt] using ih _ _ _ hrest
        | bool b => simp [decodeStockData, hkt]
        | str s => simp [decodeStockData, hkt]
        | arr xs => simp [decodeStockData, hkt]
        | obj m => simp [decodeStockData, hkt]
      · simpa [decodeStockData, hkt, hk] using ih _ _ _ hrest

theorem decodeStockData_count (dkvs : List (String × Json)) :
    ∀ total list, diffKeyCount dkvs ≤ 1 →
      (decodeStockData dkvs total 0 list).count + list.length =
        (decodeStockData dkvs total 0 list).list.length := by
  induction dkvs with
  | nil => intro t l _; simp [decodeStockData]
  | cons kv rest ih =>
      obtain ⟨k, v⟩ := kv
      intro t l hd
      by_cases hkd : k = "diff"
      · have hkt : ¬ k = "total" := by simp [hkd]
        have hrest : diffKeyCount rest = 0 := by
          have h1 : (1 : Nat) + diffKeyCount rest ≤ 1 := by
            simpa [diffKeyCount, hkd] using hd
          omega
        cases v with
        | arr items =>
            obtain ⟨tl, htl⟩ := decodeStockDiffList_extends items l
            cases hdl : decodeStockDiffList items l with
            | mk l' eopt =>
                have htl' : l' = l ++ tl := by rw [hdl] at htl; exact htl
                have hlen : l'.length = l.length + tl.length := by simp [htl']
                cases eopt with
                | some e =>
                    simp only [decodeStockData, hkd, hkt, hdl]
                    simp
                    omega
                | none =>
                    obtain ⟨hc, hl⟩ := decodeStockData_noDiff rest t
                      (l'.length - l.length) l' hrest
                    simp only [decodeStockData, hkd, hkt, hdl]
                    simp [hc, hl]
                    omega
        | null => simp [decodeStockData, hkd, hkt]
        | bool b => simp [decodeStockData, hkd, hkt]
        | num q => simp [decodeStockData, hkd, hkt]
        | str s => simp [decodeStockData, hkd, hkt]
        | obj m => simp [decodeStockData, hkd, hkt]
      · have hrest : diffKeyCount rest ≤ 1 := by
          simpa [diffKeyCount, hkd] using hd
        by_cases hkt : k = "total"
        · cases v with
          | null => simpa [decodeStockData, hkt] using ih _ _ hrest
          | num q => simpa [decodeStockData, hkt] using ih _ _ hrest
          | bool b => simp [decodeStockData, hkt]
          | str s => simp [decodeStockData, hkt]
          | arr xs => simp [decodeStockData, hkt]
          | obj m => simp [decodeStockData, hkt]
        · simpa [decodeStockData, hkt, hkd] using ih _ _ hrest

theorem decodeStockTop_count (kvs : List (String × Json)) :
    ∀ list, (∀ d, dataObjOf kvs = some d → diffKeyCount d ≤ 1) →
      (decodeStockTop kvs list).count + list.length =
        (decodeStockTop kvs list).list.length := by
  induction kvs with
  | nil => intro l _; simp [decodeStockTop]
  | cons kv rest ih =>
      obtain ⟨k, v⟩ := kv
      intro l hd
      by_cases hk : k = "data"
      · cases v with
        | obj dkvs =>
            have hcnt := hd dkvs (by simp [dataObjOf, hk])
            simpa [decodeStockTop, hk] using decodeStockData_count dkvs 0 l hcnt
        | null => simp [decodeStockTop, hk]
        | bool b => simp [decodeStockTop, hk]
        | num q => simp [decodeStockTop, hk]
        | str s => simp [decodeStockTop, hk]
        | arr xs => simp [decodeStockTop, hk]
      · have hd' : ∀ d, dataObjOf rest = some d → diffKeyCount d ≤ 1 := by
          intro d h
          exact hd d (by simpa [dataObjOf, hk] using h)
        simpa [decodeStockTop, hk] using ih l hd'

/-- Response whose `data` object holds two `diff` members: the second,
being neither array nor object, resets the reported count to `0` even
though the first appended a record. -/
def dupDiffBody : Json :=
  .obj [("data", .obj
    [("diff", .arr [.obj [("f12", .str "600000"), ("f14", .str "A")]]),
     ("diff", .null)])]

/-- C1 counterexample: on `dupDiffBody` the quote decoder appends one
record but reports a per-page count of `0` (and no error), so the
returned count does not equal the number of records appended in the
call. -/
theorem decode_count_duplicate_diff_cex :
    (decodeQuoteListStream dupDiffBody []).count = 0 ∧
    (decodeQuoteListStream dupDiffBody []).list.length = 1 ∧
    (decodeQuoteListStream dupDiffBody []).error = none := by
  refine ⟨rfl, rfl, rfl⟩

/-- C1 (amended): for every call to the streaming list decoders on a
response whose `data` object holds at most one `diff` member, the
returned per-page count equals exactly the number of records appended to
the accumulator list during that call, and a decoded item whose `f12`
code field is empty is not appended (hence not counted). -/
theorem decode_count_matches_appended (j : Json)
    (init : List StockQuote) (initB : List StockBrief)
    (h : atMostOneDiff j = true) :
    ((decodeQuoteListStream j init).count + init.length =
        (decodeQuoteListStream j init).list.length) ∧
    ((decodeStockListStream j initB).count + initB.length =
        (decodeStockListStream j initB).list.length) ∧
    (∀ kvs l l', strFieldD kvs "f12" = "" →
        decodeQuoteItem (Json.obj kvs) l = .ok l' → l' = l) ∧
    (∀ kvs l l', strFieldD kvs "f12" = "" →
        decodeStockItem (Json.obj kvs) l = .ok l' → l' = l) := by
  refine ⟨?_, ?_, ?_, ?_⟩
  · cases j with
    | obj kvs =>
        have hd : ∀ d, dataObjOf kvs = some d → diffKeyCount d ≤ 1 := by
          intro d hdo
          simp only [atMostOneDiff, hdo] at h
          exact of_decide_eq_true h
        simpa [decodeQuoteListStream] using decodeQuoteTop_count kvs init hd
    | null => simp [decodeQuoteListStream]
    | bool b => simp [decodeQuoteListStream]
    | num q => simp [decodeQuoteListStream]
    | str s => simp [decodeQuoteListStream]
    | arr xs => simp [decodeQuoteListStream]
  · cases j with
    | obj kvs =>
        have hd : ∀ d, dataObjOf kvs = some d → diffKeyCount d ≤ 1 := by
          intro d hdo
          simp only [atMostOneDiff, hdo] at h
          exact of_decide_eq_true h
        simpa [decodeStockListStream] using decodeStockTop_count kvs initB hd
    | null => simp [decodeStockListStream]
    | bool b => simp [decodeStockListStream]
    | num q => simp [decodeStockListStream]
    | str s => simp [decodeStockListStream]
    | arr xs => simp [decodeStockListStream]
  · intro kvs l l' hf12 hok
    by_cases h1 : quoteItemBad kvs
    · simp [decodeQuoteItem, h1] at hok
    · simp [decodeQuoteItem, h1, hf12] at hok
      exact hok.symm
  · intro kvs l l' hf12 hok
    by_cases h1 : (strFieldBad kvs "f12" || strFieldBad kvs "f14") = true
    · simp [decodeStockItem, h1] at hok
    · simp [decodeStockItem, h1, hf12] at hok
      exact hok.symm

/-- Well-formed single-`diff` response used to witness the amended C1:
two items, one of which has an empty `f12` and is dropped. -/
def c1WitnessBody : Json :=
  .obj [("rc", .num 0), ("data", .obj
    [("total", .num 2),
     ("diff", .arr [.obj [("f12", .str "000001"), ("f14", .str "N")],
                    .obj [("f12", .str ""), ("f14", .str "M")]])])]

theorem decode_count_matches_appended_witness :
    atMostOneDiff c1WitnessBody = true ∧
    (((decodeQuoteListStream c1WitnessBody []).count + List.length ([] : List StockQuote) =
        (decodeQuoteListStream c1WitnessBody []).list.length) ∧
    ((decodeStockListStream c1WitnessBody []).count + List.length ([] : List StockBrief) =
        (decodeStockListStream c1WitnessBody []).list.length) ∧
    (∀ kvs l l', strFieldD kvs "f12" = "" →
        decodeQuoteItem (Json.obj kvs) l = .ok l' → l' = l) ∧
    (∀ kvs l l', strFieldD kvs "f12" = "" →
        decodeStockItem (Json.obj kvs) l = .ok l' → l' = l)) :=
  ⟨rfl, decode_count_matches_appended c1WitnessBody [] [] rfl⟩

/-- Canonical list-endpoint response envelope with a given `total` and
`diff` payload. -/
def mkListResp (total : ℚ) (diff : Json) : Json :=
  .obj [("data", .obj [("total", .num total), ("diff", diff)])]

/-- One item decodes without an unmarshal error. -/
def quoteItemOk (j : Json) : Bool :=
  match decodeQuoteItem j [] with
  | .ok _ => true
  | .error _ => false

/-- The records one item contributes (none when skipped). -/
def quoteItemDelta (j : Json) : List StockQuote :=
  match decodeQuoteItem j [] with
  | .ok l => l
  | .error _ => []

theorem zipSndEq : ∀ (keys : List String) (recs : List Json),
    keys.length = recs.length → (keys.zip recs).map Prod.snd = recs := by
  intro keys
  induction keys with
  | nil =>
      intro recs h
      cases recs with
      | nil => rfl
      | cons r rs => exact absurd h (by simp)
  | cons k ks ih =>
      intro recs h
      cases recs with
      | nil => exact absurd h (by simp)
      | cons r rs =>
          simp only [List.zip_cons_cons, List.map_cons]
          rw [ih rs (by simpa using h)]

theorem decodeQuoteItem_shift (j : Json) (l : List StockQuote) :
    decodeQuoteItem j l = (decodeQuoteItem j []).map (fun d => l ++ d) := by
  cases j with
  | null => simp [decodeQuoteItem, Except.map]
  | obj kvs =>
      by_cases h1 : quoteItemBad kvs
      · simp [decodeQuoteItem, Except.map, h1]
      · by_cases h2 : strFieldD kvs "f12" = ""
        · simp [decodeQuoteItem, Except.map, h1, h2]
        · simp [decodeQuoteItem, Except.map, h1, h2]
  | bool b => simp [decodeQuoteItem, Except.map]
  | num q => simp [decodeQuoteItem, Except.map]
  | str s => simp [decodeQuoteItem, Except.map]
  | arr xs => simp [decodeQuoteItem, Except.map]

theorem decodeQuoteDiffList_ok (recs : List Json) :
    ∀ init, (∀ r ∈ recs, quoteItemOk r = true) →
      decodeQuoteDiffList recs init =
        (init ++ (recs.map quoteItemDelta).flatten, none) := by
  induction recs with
  | nil => intro init _; simp [decodeQuoteDiffList]
  | cons r rest ih =>
      intro init hok
      have hr : quoteItemOk r = true := hok r (by simp)
      obtain ⟨d, hd⟩ : ∃ d, decodeQuoteItem r [] = .ok d := by
        unfold quoteItemOk at hr
        cases hh : decodeQuoteItem r [] with
        | ok d => exact ⟨d, rfl⟩
        | error e => rw [hh] at hr; exact Bool.noConfusion hr
      have hitem : decodeQuoteItem r init = .ok (init ++ d) := by
        rw [decodeQuoteItem_shift, hd]
        rfl
      have hdelta : quoteItemDelta r = d := by
        unfold quoteItemDelta
        rw [hd]
      have hrest := ih (init ++ d) (fun x hx => hok x (by simp [hx]))
      simp [decodeQuoteDiffList, hitem, hrest, hdelta]

/-- Single brief record expressed under an array-shaped `diff`. -/
def c2ArrDiffBody : Json :=
  mkListResp 1 (.arr [.obj [("f12", .str "000001"), ("f14", .str "PAB")]])

/-- The same record expressed under an object-shaped `diff`. -/
def c2ObjDiffBody : Json :=
  mkListResp 1 (.obj [("0", .obj [("f12", .str "000001"), ("f14", .str "PAB")])])

/-- C2 counterexample: the brief-record decoder (`decodeStockListStream`)
does not treat an object-shaped `diff` like the array shape — the array
form yields one record with no error, while the object form yields no
records and the decode error `expected diff [`.  So the claimed
array/object equivalence fails for the brief decoder. -/
theorem diff_object_stock_decoder_cex :
    (decodeStockListStream c2ArrDiffBody []).list.length = 1 ∧
    (decodeStockListStream c2ArrDiffBody []).error = none ∧
    (decodeStockListStream c2ObjDiffBody []).list = [] ∧
    (decodeStockListStream c2ObjDiffBody []).error = some "expected diff array" :=
  ⟨rfl, rfl, rfl, rfl⟩

/-- C2 (amended): for the quote-record decoder, decoding a response whose
`data.diff` is a JSON array of records and one whose `data.diff` is an
object with arbitrary string keys and the same records as values yield
identical results — same accumulated records and same `(total, count)` —
and in the array case the records are appended in array order (each item
contributing its normalized record, skipped items contributing nothing).
The brief-record decoder instead accepts only the array shape: an
object-shaped `diff` is a decode error. -/
theorem diff_array_object_equiv_quote (recs : List Json) (keys : List String)
    (total : ℚ) (init : List StockQuote) (initB : List StockBrief)
    (h : keys.length = recs.length) :
    (decodeQuoteListStream (mkListResp total (.arr recs)) init =
      decodeQuoteListStream (mkListResp total (.obj (keys.zip recs))) init) ∧
    ((∀ r ∈ recs, quoteItemOk r = true) →
      decodeQuoteListStream (mkListResp total (.arr recs)) init =
        ⟨if total.den = 1 then total.num else 0,
         ((recs.map quoteItemDelta).flatten).length,
         init ++ (recs.map quoteItemDelta).flatten, none⟩) ∧
    (∀ mkvs : List (String × Json),
      (decodeStockListStream (mkListResp total (.obj mkvs)) initB).error =
        some "expected diff array") := by
  refine ⟨?_, ?_, ?_⟩
  · have hz : (keys.zip recs).map Prod.snd = recs := zipSndEq keys recs h
    simp [mkListResp, decodeQuoteListStream, decodeQuoteTop, decodeQuoteData, hz]
  · intro hok
    have hdl := decodeQuoteDiffList_ok recs init hok
    simp [mkListResp, decodeQuoteListStream, decodeQuoteTop, decodeQuoteData, hdl]
  · intro mkvs
    simp [mkListResp, decodeStockListStream, decodeStockTop, decodeStockData]

theorem diff_array_object_equiv_quote_witness :
    (["k"] : List String).length =
        ([Json.obj [("f12", Json.str "600519"), ("f14", Json.str "MT")]] :
          List Json).length ∧
    ((decodeQuoteListStream (mkListResp 2
        (.arr [Json.obj [("f12", Json.str "600519"), ("f14", Json.str "MT")]])) [] =
      decodeQuoteListStream (mkListResp 2
        (.obj ((["k"] : List String).zip
          [Json.obj [("f12", Json.str "600519"), ("f14", Json.str "MT")]]))) []) ∧
    ((∀ r ∈ ([Json.obj [("f12", Json.str "600519"), ("f14", Json.str "MT")]] :
          List Json), quoteItemOk r = true) →
      decodeQuoteListStream (mkListResp 2
          (.arr [Json.obj [("f12", Json.str "600519"), ("f14", Json.str "MT")]])) [] =
        ⟨if (2 : ℚ).den = 1 then (2 : ℚ).num else 0,
         (([Json.obj [("f12", Json.str "600519"), ("f14", Json.str "MT")]].map
            quoteItemDelta).flatten).length,
         [] ++ ([Json.obj [("f12", Json.str "600519"), ("f14", Json.str "MT")]].map
            quoteItemDelta).flatten, none⟩) ∧
    (∀ mkvs : List (String × Json),
      (decodeStockListStream (mkListResp 2 (.obj mkvs)) []).error =
        some "expected diff array")) :=
  ⟨rfl, diff_array_object_equiv_quote
    [Json.obj [("f12", Json.str "600519"), ("f14", Json.str "MT")]] ["k"] 2 [] [] rfl⟩

/- Worker-package constants (internal/worker). -/

def minKlinesForMA20 : Nat := 20
def klineCountForStrategy : Nat := 80
def ma60TrendLookback : Nat := 5
def macdFast : Nat := 12
def macdSlow : Nat := 26
def macdSignal : Nat := 9
def listPageSize : Nat := 500

/-- Go `maN`: simple average of the closes of the last `n` bars
(`klines[len(klines)-n:]`), `0` when fewer than `n` bars exist. -/
def maN (klines : List KLine) (n : Nat) : ℚ :=
  if klines.length < n then 0
  else ((klines.drop (klines.length - n)).map (·.close)).sum / (n : ℚ)

def MA5 (klines : List KLine) : ℚ := maN klines 5

def MA10 (klines : List KLine) : ℚ := maN klines 10

def MA20 (klines : List KLine) : ℚ := maN klines 20

def MA60 (klines : List KLine) : ℚ := maN klines 60

/-- Go `maNAt`: average of the closes over indices
`start, …, start+n-1` with `start = len - n - offset`, `0` when fewer
than `n + offset` bars exist (the Go loop sums index by index, rendered
here as a map over `List.range n`). -/
def maNAt (klines : List KLine) (n offset : Nat) : ℚ :=
  if klines.length < n + offset then 0
  else
    ((List.range n).map (fun i =>
      (klines.getD (klines.length - n - offset + i) default).close)).sum / (n : ℚ)

/-- Tail of the EMA recurrence: outputs for the remaining data, given the
previous output value. -/
def emaFrom (mult prev : ℚ) : List ℚ → List ℚ
  | [] => []
  | x :: rest =>
      let v := (x - prev) * mult + prev
      v :: emaFrom mult v rest

/-- Go `ema`: `nil` when fewer than `period` points; otherwise a series
of the same length whose first `period - 1` entries keep the zero fill of
`make([]float64, len(data))`, entry `period - 1` is the simple-average
seed, and later entries follow
`out[i] = (data[i] - out[i-1]) * (2/(period+1)) + out[i-1]`.
(Go would panic on `period = 0` via `out[-1]`; its callers only pass
12, 26 and 9, and the extra guard here is outside every claim.) -/
def ema (data : List ℚ) (period : Nat) : List ℚ :=
  if period = 0 ∨ data.length < period then []
  else
    let seed := (data.take period).sum / (period : ℚ)
    let mult := 2 / ((period : ℚ) + 1)
    List.replicate (period - 1) 0 ++ (seed :: emaFrom mult seed (data.drop period))

/-- Go `macdResult`. -/
structure MacdResult where
  histogram : ℚ
  histogramPrev : ℚ
  goldenCross : Bool
  deriving Repr, DecidableEq

/-- Go `computeMACD`: zero result below `macdSlow + macdSignal` bars;
otherwise the zero-filled `dif` array is populated from index
`macdSlow - 1`, `dea` is the EMA of `dif[macdSlow-1:]` over `macdSignal`,
the zero-filled histogram is populated from index
`macdSlow - 1 + macdSignal - 1` as `2 * (dif[i] - dea[i-(macdSlow-1)])`,
and the reported values are the histogram at the last and previous bar
(with their range guards) plus the golden-cross test on the last two
`dif`/`dea` values. -/
def computeMACD (klines : List KLine) : MacdResult :=
  let n := klines.length
  if n < macdSlow + macdSignal then ⟨0, 0, false⟩
  else
    let closes := klines.map (·.close)
    let ema12 := ema closes macdFast
    let ema26 := ema closes macdSlow
    let dif := (List.range n).map (fun i =>
      if macdSlow - 1 ≤ i then ema12.getD i 0 - ema26.getD i 0 else 0)
    let dea := ema (dif.drop (macdSlow - 1)) macdSignal
    let histogram := (List.range n).map (fun i =>
      if macdSlow - 1 + macdSignal - 1 ≤ i then
        2 * (dif.getD i 0 - dea.getD (i - (macdSlow - 1)) 0)
      else 0)
    let last := n - 1
    let prev := n - 2
    let h0 := if macdSlow - 1 + macdSignal - 1 ≤ last then histogram.getD last 0 else 0
    let h1 := if macdSlow - 1 + macdSignal - 1 ≤ prev then histogram.getD prev 0 else 0
    let goldenCross :=
      if macdSlow - 1 ≤ prev ∧ macdSlow - 1 ≤ last ∧
          last - (macdSlow - 1) < dea.length then
        decide (dea.getD (last - (macdSlow - 1)) 0 < dif.getD last 0 ∧
          dif.getD prev 0 ≤ dea.getD (prev - (macdSlow - 1)) 0)
      else false
    ⟨h0, h1, goldenCross⟩

theorem rangeMap_getD_window (l : List KLine) (start : Nat) :
    ∀ n, start + n ≤ l.length →
      (List.range n).map (fun i => l.getD (start + i) default) =
        (l.drop start).take n := by
  intro n
  induction n with
  | zero => intro _; simp
  | succ m ih =>
      intro h
      rw [List.range_succ, List.map_append, ih (by omega), List.take_succ]
      simp only [List.map_cons, List.map_nil]
      congr 1
      have hm : start + m < l.length := by omega
      have hdm : m < (l.drop start).length := by
        simp [List.length_drop]
        omega
      rw [List.getElem?_drop, List.getElem?_eq_getElem hm,
        List.getD_eq_getElem?_getD, List.getElem?_eq_getElem hm]
      simp

/-- C7: for every Bar sequence, order `n ≥ 1` and offset `k`, `maNAt`
returns the zero sentinel when fewer than `n + k` bars exist, and
otherwise the arithmetic mean of the closes of the `n` bars ending `k`
bars before the most recent bar; `maN` is the offset-0 case. -/
theorem maNAt_window_spec (klines : List KLine) (n k : Nat) (hn : 1 ≤ n) :
    (klines.length < n + k → maNAt klines n k = 0) ∧
    (n + k ≤ klines.length →
      maNAt klines n k =
        ((((klines.take (klines.length - k)).drop (klines.length - k - n)).map
            (·.close)).sum) / (n : ℚ)) ∧
    maN klines n = maNAt klines n 0 := by
  refine ⟨?_, ?_, ?_⟩
  · intro hlt
    simp [maNAt, hlt]
  · intro hge
    have hnot : ¬ klines.length < n + k := by omega
    have hwin : (List.range n).map
        (fun i => klines.getD (klines.length - n - k + i) default) =
          (klines.drop (klines.length - n - k)).take n :=
      rangeMap_getD_window klines (klines.length - n - k) n (by omega)
    have hmap : (List.range n).map
        (fun i => (klines.getD (klines.length - n - k + i) default).close) =
          ((klines.drop (klines.length - n - k)).take n).map (·.close) := by
      rw [← hwin, List.map_map]
      rfl
    have hslice : (klines.take (klines.length - k)).drop (klines.length - k - n) =
        (klines.drop (klines.length - n - k)).take n := by
      rw [List.drop_take]
      congr 1
      · omega
      · congr 1
        omega
    rw [maNAt]
    rw [if_neg hnot]
    rw [hslice, ← hmap]
  · by_cases hlen : klines.length < n
    · simp [maN, maNAt, hlen]
    · have hwin : (List.range n).map
          (fun i => klines.getD (klines.length - n - 0 + i) default) =
            (klines.drop (klines.length - n - 0)).take n :=
        rangeMap_getD_window klines (klines.length - n - 0) n (by omega)
      have htake : (klines.drop (klines.length - n - 0)).take n =
          klines.drop (klines.length - n) := by
        have : klines.length - n - 0 = klines.length - n := by omega
        rw [this]
        have hlen2 : (klines.drop (klines.length - n)).length = n := by
          simp [List.length_drop]
          omega
        exact List.take_of_length_le (by rw [hlen2])
      rw [maN, maNAt, if_neg (by omega : ¬ klines.length < n + 0),
        if_neg (by omega : ¬ klines.length < n)]
      have hmap : (List.range n).map
          (fun i => (klines.getD (klines.length - n - 0 + i) default).close) =
            (klines.drop (klines.length - n)).map (·.close) := by
        rw [← htake, ← hwin, List.map_map]
        rfl
      rw [hmap]

/-- Three concrete bars used to witness C7. -/
def c7Bars : List KLine := [⟨"d1", 1, 10, 0⟩, ⟨"d2", 1, 20, 0⟩, ⟨"d3", 1, 30, 0⟩]

theorem maNAt_window_spec_witness :
    1 ≤ 2 ∧
    ((c7Bars.length < 2 + 1 → maNAt c7Bars 2 1 = 0) ∧
    (2 + 1 ≤ c7Bars.length →
      maNAt c7Bars 2 1 =
        ((((c7Bars.take (c7Bars.length - 1)).drop (c7Bars.length - 1 - 2)).map
            (·.close)).sum) / (2 : ℚ)) ∧
    maN c7Bars 2 = maNAt c7Bars 2 0) :=
  ⟨by decide, maNAt_window_spec c7Bars 2 1 (by decide)⟩

theorem emaFrom_length (mult : ℚ) : ∀ (l : List ℚ) (prev : ℚ),
    (emaFrom mult prev l).length = l.length := by
  intro l
  induction l with
  | nil => intro prev; rfl
  | cons x rest ih => intro prev; simp [emaFrom, ih]

theorem emaChain (mult : ℚ) : ∀ (l : List ℚ) (prev : ℚ) (j : Nat), j < l.length →
    (prev :: emaFrom mult prev l).getD (j + 1) 0 =
      ((l.getD j 0) - (prev :: emaFrom mult prev l).getD j 0) * mult +
        (prev :: emaFrom mult prev l).getD j 0 := by
  intro l
  induction l with
  | nil => intro prev j h; simp at h
  | cons x rest ih =>
      intro prev j h
      cases j with
      | zero => simp [emaFrom]
      | succ m =>
          have hm : m < rest.length := by simpa using h
          have hstep := ih ((x - prev) * mult + prev) m hm
          simpa [emaFrom] using hstep

/-- C8: for every data series and period `≥ 1`, `ema` is empty when the
series has fewer than `period` elements; otherwise it has the series'
length, its entry at index `period - 1` is the simple average of the
first `period` elements, and every later entry satisfies
`ema[i] = (data[i] - ema[i-1]) * (2/(period+1)) + ema[i-1]`. -/
theorem ema_seed_recurrence_spec (data : List ℚ) (period : Nat) (hp : 1 ≤ period) :
    (data.length < period → ema data period = []) ∧
    (period ≤ data.length →
      (ema data period).length = data.length ∧
      (ema data period).getD (period - 1) 0 = (data.take period).sum / (period : ℚ) ∧
      (∀ i, period ≤ i → i < data.length →
        (ema data period).getD i 0 =
          ((data.getD i 0) - (ema data period).getD (i - 1) 0) *
              (2 / ((period : ℚ) + 1)) +
            (ema data period).getD (i - 1) 0)) := by
  constructor
  · intro hlt
    rw [ema, if_pos (Or.inr hlt)]
  · intro hge
    have hcond : ¬ (period = 0 ∨ data.length < period) := by omega
    have hema : ema data period =
        List.replicate (period - 1) 0 ++
          ((data.take period).sum / (period : ℚ) ::
            emaFrom (2 / ((period : ℚ) + 1)) ((data.take period).sum / (period : ℚ))
              (data.drop period)) := by
      rw [ema, if_neg hcond]
    refine ⟨?_, ?_, ?_⟩
    · rw [hema]
      simp [emaFrom_length]
      omega
    · rw [hema, List.getD_append_right _ _ _ _ (by simp)]
      simp
    · intro i hpi hilen
      have hj : i - period < (data.drop period).length := by
        simp [List.length_drop]
        omega
      have hchain := emaChain (2 / ((period : ℚ) + 1)) (data.drop period)
        ((data.take period).sum / (period : ℚ)) (i - period) hj
      have hgi : (ema data period).getD i 0 =
          ((data.take period).sum / (period : ℚ) ::
            emaFrom (2 / ((period : ℚ) + 1)) ((data.take period).sum / (period : ℚ))
              (data.drop period)).getD (i - period + 1) 0 := by
        rw [hema, List.getD_append_right _ _ _ _ (by simp; omega)]
        have h2 : i - (List.replicate (period - 1) (0 : ℚ)).length = i - period + 1 := by
          simp
          omega
        rw [h2]
      have hgi1 : (ema data period).getD (i - 1) 0 =
          ((data.take period).sum / (period : ℚ) ::
            emaFrom (2 / ((period : ℚ) + 1)) ((data.take period).sum / (period : ℚ))
              (data.drop period)).getD (i - period) 0 := by
        rw [hema, List.getD_append_right _ _ _ _ (by simp; omega)]
        have h2 : i - 1 - (List.replicate (period - 1) (0 : ℚ)).length = i - period := by
          simp
          omega
        rw [h2]
      have hdg : (data.drop period).getD (i - period) 0 = data.getD i 0 := by
        rw [List.getD_eq_getElem?_getD, List.getElem?_drop,
          ← List.getD_eq_getElem?_getD]
        congr 1
        omega
      rw [hgi, hgi1, hchain, hdg]

/-- Concrete series used to witness C8. -/
def c8Data : List ℚ := [1, 3, 5]

theorem ema_seed_recurrence_spec_witness :
    1 ≤ 2 ∧
    ((c8Data.length < 2 → ema c8Data 2 = []) ∧
    (2 ≤ c8Data.length →
      (ema c8Data 2).length = c8Data.length ∧
      (ema c8Data 2).getD (2 - 1) 0 = (c8Data.take 2).sum / (2 : ℚ) ∧
      (∀ i, 2 ≤ i → i < c8Data.length →
        (ema c8Data 2).getD i 0 =
          ((c8Data.getD i 0) - (ema c8Data 2).getD (i - 1) 0) * (2 / ((2 : ℚ) + 1)) +
            (ema c8Data 2).getD (i - 1) 0))) :=
  ⟨by decide, ema_seed_recurrence_spec c8Data 2 (by decide)⟩

theorem rangeMap_getD (f : Nat → ℚ) (n i : Nat) (h : i < n) :
    ((List.range n).map f).getD i 0 = f i := by
  rw [List.getD_eq_getElem?_getD, List.getElem?_map, List.getElem?_range h]
  rfl

/-- The MACD difference line at close index `i`: fast EMA minus slow EMA
(the zero fill of the EMA outputs below `period - 1` carries over). -/
def macdDifference (klines : List KLine) (i : Nat) : ℚ :=
  (ema (klines.map (·.close)) macdFast).getD i 0 -
    (ema (klines.map (·.close)) macdSlow).getD i 0

/-- The zero-padded difference series of `computeMACD` (populated from
index `macdSlow - 1`). -/
def macdDifSeries (klines : List KLine) : List ℚ :=
  (List.range klines.length).map (fun i =>
    if macdSlow - 1 ≤ i then macdDifference klines i else 0)

/-- The signal line (`dea`) aligned back to close index `i`: the EMA of
the difference series over the portion where both EMAs are defined,
`dea[j]` corresponding to `dif[macdSlow - 1 + j]`. -/
def macdSignalLine (klines : List KLine) (i : Nat) : ℚ :=
  (ema ((macdDifSeries klines).drop (macdSlow - 1)) macdSignal).getD
    (i - (macdSlow - 1)) 0

/-- C4: with fewer than `macdSlow + macdSignal = 35` bars `computeMACD`
returns the zero result (both histogram values `0`, no golden cross) — in
particular for 34 bars; with at least 35 bars the reported histogram for
the most recent bar equals `2 × (difference − signal)` at that bar; and a
19-bar sequence has `maN _ 20 = 0` (the undefined sentinel). -/
theorem computeMACD_histogram_spec (klines : List KLine) :
    (klines.length < macdSlow + macdSignal → computeMACD klines = ⟨0, 0, false⟩) ∧
    (klines.length = 34 → computeMACD klines = ⟨0, 0, false⟩) ∧
    (macdSlow + macdSignal ≤ klines.length →
      (computeMACD klines).histogram =
        2 * (macdDifference klines (klines.length - 1) -
          macdSignalLine klines (klines.length - 1))) ∧
    (klines.length = 19 → maN klines 20 = 0) := by
  have h35 : macdSlow + macdSignal = 35 := rfl
  refine ⟨?_, ?_, ?_, ?_⟩
  · intro hlt
    simp only [computeMACD]
    rw [if_pos hlt]
  · intro h34
    simp only [computeMACD]
    rw [if_pos (by omega)]
  · intro hge
    have hnot : ¬ klines.length < macdSlow + macdSignal := by omega
    have hlast : klines.length - 1 < klines.length := by omega
    have h33 : macdSlow - 1 + macdSignal - 1 ≤ klines.length - 1 := by
      rw [show macdSlow - 1 + macdSignal - 1 = 33 from rfl]
      omega
    have h25 : macdSlow - 1 ≤ klines.length - 1 := by
      rw [show macdSlow - 1 = 25 from rfl]
      omega
    simp only [computeMACD]
    rw [if_neg hnot]
    dsimp only
    rw [if_pos h33, rangeMap_getD _ _ _ hlast, if_pos h33]
    congr 1
    congr 1
    · rw [rangeMap_getD _ _ _ hlast, if_pos h25]
      rfl
  · intro h19
    rw [maN, if_pos (by omega)]

/-- Go `model.Stock` (fields read off the composite literal in
`fetchAndMerge`; `VolumeRatio` is embedded as `volumeRatioVal`). -/
structure Stock where
  code : String
  name : String
  mainBusiness : String
  price : ℚ
  ma5 : ℚ
  ma10 : ℚ
  ma20 : ℚ
  ma60 : ℚ
  changePct : ℚ
  amount : ℚ
  volumeRatioVal : ℚ
  turnoverRate : ℚ
  marketCap : ℚ
  pe : ℚ
  netInflow : ℚ
  mainForceInflow : ℚ
  mainForceOutflow : ℚ
  ma60Up : Bool
  macdHistogram : ℚ
  macdHistogramPrev : ℚ
  macdGoldenCross : Bool
  deriving Repr, DecidableEq

/-- Go `DefaultFilter` (the nil-pointer guard is dropped: records are
values here). -/
def DefaultFilter (s : Stock) : Bool := decide (s.ma20 < s.price)

/-- Go `fetchAndMerge`, with the `GetHisKlines(ctx, q.Code, 80)` call
abstracted as its result: a fetch error drops the job (logged), fewer
than `minKlinesForMA20` bars drops the job, and otherwise the `Stock` is
assembled from the single series (`MA5/10/20/60`, the `MA60` trend flag
against the value `ma60TrendLookback` sessions earlier, and the MACD
outputs). -/
def fetchAndMerge (q : StockQuote) (fetched : Except String (List KLine)) :
    Option Stock :=
  match fetched with
  | .error _ => none
  | .ok klines =>
      if klines.length < minKlinesForMA20 then none
      else
        some { code := q.code, name := q.name, mainBusiness := q.mainBusiness,
               price := q.price, ma5 := MA5 klines, ma10 := MA10 klines,
               ma20 := MA20 klines, ma60 := maNAt klines 60 0,
               changePct := q.changePct, amount := q.amount,
               volumeRatioVal := q.volumeRatioVal, turnoverRate := q.turnoverRate,
               marketCap := q.marketCap, pe := q.pe, netInflow := q.netInflow,
               mainForceInflow := q.mainForceInflow,
               mainForceOutflow := q.mainForceOutflow,
               ma60Up := decide (0 < maNAt klines 60 ma60TrendLookback ∧
                 maNAt klines 60 ma60TrendLookback < maNAt klines 60 0),
               macdHistogram := (computeMACD klines).histogram,
               macdHistogramPrev := (computeMACD klines).histogramPrev,
               macdGoldenCross := (computeMACD klines).goldenCross }

/-- Go `runWorker` draining a finite job list (one worker's sequential
trace; per-job work is independent, so the pool interleaving does not
change which records each job produces): a dropped or filtered-out job
contributes nothing and the loop continues; an accepted record goes to
the output. -/
def runWorker (filter : Stock → Bool)
    (fetch : String → Except String (List KLine)) :
    List StockQuote → List Stock
  | [] => []
  | q :: rest =>
      match fetchAndMerge q (fetch q.code) with
      | none => runWorker filter fetch rest
      | some s =>
          if filter s then s :: runWorker filter fetch rest
          else runWorker filter fetch rest

theorem runWorker_skips (filter : Stock → Bool)
    (fetch : String → Except String (List KLine)) (q : StockQuote)
    (hnone : fetchAndMerge q (fetch q.code) = none) :
    ∀ pre post, runWorker filter fetch (pre ++ q :: post) =
      runWorker filter fetch (pre ++ post) := by
  intro pre
  induction pre with
  | nil => intro post; simp [runWorker, hnone]
  | cons p pre ih =>
      intro post
      simp only [List.cons_append, runWorker]
      cases fetchAndMerge p (fetch p.code) with
      | none => exact ih post
      | some s =>
          by_cases hf : filter s
          · simp [hf, ih post]
          · simp [hf, ih post]

/-- C6: a job whose fetch yields fewer than 20 bars is dropped — it never
produces an output record and the remaining jobs are processed unchanged
(the pool is not aborted); a job yielding at least 20 bars with positive
closes passes the minimum-history check and the built record has a
strictly positive MA20. -/
theorem worker_min_history_spec (filter : Stock → Bool)
    (fetch : String → Except String (List KLine)) (q : StockQuote)
    (ks : List KLine) (hfetch : fetch q.code = .ok ks) :
    (ks.length < minKlinesForMA20 →
      (fetchAndMerge q (fetch q.code) = none ∧
        ∀ pre post, runWorker filter fetch (pre ++ q :: post) =
          runWorker filter fetch (pre ++ post))) ∧
    (minKlinesForMA20 ≤ ks.length → (∀ b ∈ ks, 0 < b.close) →
      (fetchAndMerge q (fetch q.code) ≠ none ∧
        ∀ s, fetchAndMerge q (fetch q.code) = some s → 0 < s.ma20)) := by
  constructor
  · intro hlt
    have hnone : fetchAndMerge q (fetch q.code) = none := by
      rw [hfetch]
      simp [fetchAndMerge, hlt]
    exact ⟨hnone, runWorker_skips filter fetch q hnone⟩
  · intro hge hpos
    have h20 : minKlinesForMA20 = 20 := rfl
    have hnot : ¬ ks.length < minKlinesForMA20 := by omega
    have hma : 0 < maN ks 20 := by
      rw [maN, if_neg (by omega)]
      have hmem : ∀ x ∈ (ks.drop (ks.length - 20)).map (·.close), 0 < x := by
        intro x hx
        simp only [List.mem_map] at hx
        obtain ⟨b, hb, rfl⟩ := hx
        exact hpos b (List.mem_of_mem_drop hb)
      have hne : (ks.drop (ks.length - 20)).map (·.close) ≠ [] := by
        have hlen : ((ks.drop (ks.length - 20)).map (·.close)).length = 20 := by
          simp [List.length_drop]
          omega
        intro hcontra
        rw [hcontra] at hlen
        simp at hlen
      exact div_pos (List.sum_pos _ hmem hne) (by norm_num)
    constructor
    · rw [hfetch]
      simp [fetchAndMerge, hnot]
    · intro s hs
      rw [hfetch] at hs
      simp only [fetchAndMerge, hnot, if_false, ite_false, Option.some.injEq] at hs
      rw [← hs]
      exact hma

/-- Concrete inputs used to witness C6. -/
def c6Quote : StockQuote := ⟨"600000", "X", "", 10, 0, 0, 0, 0, 0, 0, 0, 0, 0⟩

def c6Bars : List KLine := List.replicate 20 ⟨"d", 1, 2, 0⟩

def c6Fetch : String → Except String (List KLine) := fun _ => .ok c6Bars

theorem worker_min_history_spec_witness :
    c6Fetch c6Quote.code = .ok c6Bars ∧
    ((c6Bars.length < minKlinesForMA20 →
      (fetchAndMerge c6Quote (c6Fetch c6Quote.code) = none ∧
        ∀ pre post, runWorker DefaultFilter c6Fetch (pre ++ c6Quote :: post) =
          runWorker DefaultFilter c6Fetch (pre ++ post))) ∧
    (minKlinesForMA20 ≤ c6Bars.length → (∀ b ∈ c6Bars, 0 < b.close) →
      (fetchAndMerge c6Quote (c6Fetch c6Quote.code) ≠ none ∧
        ∀ s, fetchAndMerge c6Quote (c6Fetch c6Quote.code) = some s → 0 < s.ma20))) :=
  ⟨rfl, worker_min_history_spec DefaultFilter c6Fetch c6Quote c6Bars rfl⟩

/- Retrying-transport constants (internal/api): `maxRetries = 3`,
`retryDelay = 500ms`, `retryDelay429 = 5s`, `httpStatusTooMany = 429`.
Durations are embedded in milliseconds. -/

def maxRetries : Nat := 3

def retryDelayMS : Nat := 500

def retryDelay429MS : Nat := 5000

def httpStatusTooMany : Nat := 429

/-- Outcome of one attempt as `doWithRetry` observes it: a request-build
or transport error (no HTTP status observed), or a response carrying its
status code and whether the body read succeeded (consulted only on 200;
for non-200 the body-read error is discarded). -/
inductive AttemptRes where
  | reqErr
  | resp (status : Nat) (readOk : Bool)
  deriving Repr, DecidableEq

/-- Classification of a failed attempt's error (`lastErr`). -/
inductive RetryErr where
  | transport
  | readFail
  | httpStatus (code : Nat)
  deriving Repr, DecidableEq

/-- Ghost trace of one `doWithRetry` call: the backoff sleeps in order,
the number of attempts made, and the result (index of the succeeding
attempt, or the last error after exhausting the budget). -/
structure RetryRun where
  sleeps : List Nat
  attemptsMade : Nat
  result : Except (Option RetryErr) Nat
  deriving Repr

/-- The backoff chosen from the remembered status: long on 429. -/
def backoffMS (lastStatus : Nat) : Nat :=
  if lastStatus = httpStatusTooMany then retryDelay429MS else retryDelayMS

/-- How an attempt updates the remembered `lastStatus`: a non-200
response stores its status, a 200 response resets it to `0` (Go sets
`lastStatus = 0` before reading the body), and a transport error leaves
it unchanged. -/
def statusUpd (st : Nat) : AttemptRes → Nat
  | .reqErr => st
  | .resp status _ => if status = 200 then 0 else status

/-- `lastStatus` after the first `k` attempts of strategy `f`. -/
def statusAfter (f : Nat → AttemptRes) (k : Nat) : Nat :=
  ((List.range k).map f).foldl statusUpd 0

/-- The `lastErr` a failed attempt leaves behind. -/
def errOf : AttemptRes → RetryErr
  | .reqErr => .transport
  | .resp status _ => if status = 200 then .readFail else .httpStatus status

/-- An attempt that succeeds outright (status 200 and body read). -/
def attemptOk : AttemptRes → Bool
  | .reqErr => false
  | .resp status readOk => (decide (status = 200)) && readOk

/-- The retry loop of Go `doWithRetry` (cancellation never fires in this
embedding; pacing, headers and logging have no observable effect here):
before every attempt other than the first it sleeps `backoffMS` of the
remembered status, then classifies the attempt's outcome. -/
def retryAux (attempt st : Nat) (lastErr : Option RetryErr) :
    List AttemptRes → RetryRun
  | [] => ⟨[], 0, .error lastErr⟩
  | o :: rest =>
      let pre : List Nat := if attempt = 0 then [] else [backoffMS st]
      match o with
      | .reqErr =>
          let r := retryAux (attempt + 1) st (some .transport) rest
          ⟨pre ++ r.sleeps, r.attemptsMade + 1, r.result⟩
      | .resp status readOk =>
          if status = 200 then
            if readOk then ⟨pre, 1, .ok attempt⟩
            else
              let r := retryAux (attempt + 1) 0 (some .readFail) rest
              ⟨pre ++ r.sleeps, r.attemptsMade + 1, r.result⟩
          else
            let r := retryAux (attempt + 1) status (some (.httpStatus status)) rest
            ⟨pre ++ r.sleeps, r.attemptsMade + 1, r.result⟩

/-- Go `doWithRetry`: at most `maxRetries = 3` attempts against the
outcome strategy `f` (attempt `k` observes `f k`). -/
def doWithRetry (f : Nat → AttemptRes) : RetryRun :=
  retryAux 0 0 none [f 0, f 1, f 2]

/-- 429, then a transport error, then success. -/
def c3cex : Nat → AttemptRes := fun n =>
  if n = 0 then .resp 429 true else if n = 1 then .reqErr else .resp 200 true

/-- C3 counterexample: under `c3cex` the code sleeps the long backoff
(5000 ms) before attempt 3 although the immediately preceding attempt
was a transport error with no HTTP status — in particular its status was
not 429, so the claim "long exactly when the immediately preceding
attempt's HTTP status was 429" demands the short 500 ms backoff there. -/
theorem doWithRetry_backoff_cex :
    (doWithRetry c3cex).sleeps = [5000, 5000] ∧
    c3cex 1 = AttemptRes.reqErr ∧
    (∀ b, c3cex 1 ≠ AttemptRes.resp 429 b) ∧
    (doWithRetry c3cex).sleeps.getD 1 0 ≠ retryDelayMS := by decide

theorem retryAux_pos_spec : ∀ (outs : List AttemptRes) (attempt st : Nat)
    (e : Option RetryErr), attempt ≠ 0 →
    (retryAux attempt st e outs).attemptsMade ≤ outs.length ∧
    (retryAux attempt st e outs).sleeps.length =
      (retryAux attempt st e outs).attemptsMade ∧
    (∀ j, j < (retryAux attempt st e outs).sleeps.length →
      (retryAux attempt st e outs).sleeps.getD j 0 =
        backoffMS ((outs.take j).foldl statusUpd st)) ∧
    (∀ e', (retryAux attempt st e outs).result = .error e' →
      (retryAux attempt st e outs).attemptsMade = outs.length ∧
      (outs = [] → e' = e) ∧
      (outs ≠ [] →
        e' = some (errOf (outs.getD (outs.length - 1) AttemptRes.reqErr)))) := by
  intro outs
  induction outs with
  | nil =>
      intro attempt st e hatt
      refine ⟨by simp [retryAux], by simp [retryAux], ?_, ?_⟩
      · intro j hj
        simp [retryAux] at hj
      · intro e' he'
        simp only [retryAux] at he'
        injection he' with he'
        exact ⟨rfl, fun _ => he'.symm, fun hc => absurd rfl hc⟩
  | cons o rest ih =>
      intro attempt st e hatt
      by_cases hok : attemptOk o = true
      · obtain ⟨s, b, hb⟩ : ∃ s b, o = AttemptRes.resp s b := by
          cases o with
          | reqErr => simp [attemptOk] at hok
          | resp s b => exact ⟨s, b, rfl⟩
        subst hb
        simp only [attemptOk, Bool.and_eq_true, decide_eq_true_eq] at hok
        obtain ⟨hs, hbtrue⟩ := hok
        subst hs
        subst hbtrue
        refine ⟨?_, ?_, ?_, ?_⟩
        · simp [retryAux, hatt]
        · simp [retryAux, hatt]
        · intro j hj
          simp [retryAux, hatt] at hj
          have hj0 : j = 0 := by omega
          subst hj0
          simp [retryAux, hatt]
        · intro e' he'
          simp [retryAux, hatt] at he'
      · have hstep : retryAux attempt st e (o :: rest) =
            ⟨backoffMS st ::
              (retryAux (attempt + 1) (statusUpd st o) (some (errOf o)) rest).sleeps,
             (retryAux (attempt + 1) (statusUpd st o) (some (errOf o)) rest).attemptsMade + 1,
             (retryAux (attempt + 1) (statusUpd st o) (some (errOf o)) rest).result⟩ := by
          cases o with
          | reqErr => simp [retryAux, statusUpd, errOf, hatt]
          | resp s b =>
              by_cases hs : s = 200
              · subst hs
                cases b with
                | true => simp [attemptOk] at hok
                | false => simp [retryAux, statusUpd, errOf, hatt]
              · simp [retryAux, statusUpd, errOf, hatt, hs]
        obtain ⟨ih1, ih2, ih3, ih4⟩ :=
          ih (attempt + 1) (statusUpd st o) (some (errOf o)) (by omega)
        rw [hstep]
        refine ⟨by simp; omega, by simp [ih2], ?_, ?_⟩
        · intro j hj
          cases j with
          | zero => simp
          | succ m =>
              have hm : m <
                  (retryAux (attempt + 1) (statusUpd st o)
                    (some (errOf o)) rest).sleeps.length := by
                simp at hj
                omega
              simp only [List.getD_cons_succ]
              rw [ih3 m hm]
              simp [List.foldl_cons]
        · intro e' he'
          simp only at he'
          obtain ⟨ha, hb, hc⟩ := ih4 e' he'
          refine ⟨by simp [ha], by simp, ?_⟩
          intro _
          by_cases hrest : rest = []
          · subst hrest
            simpa using hb rfl
          · have hcc := hc hrest
            cases hrl : rest.length with
            | zero => exact absurd (List.length_eq_zero.mp hrl) hrest
            | succ m =>
                simp only [List.length_cons, hrl]
                simp only [Nat.add_sub_cancel, List.getD_cons_succ]
                rw [hcc, hrl]
                simp

/-- C3 (amended): for every sequence of attempt outcomes, at most 3 (and
at least 1) attempts are made; a backoff sleep precedes every attempt
after the first; the sleep before attempt `j+2` is the long 5 s backoff
exactly when the remembered status after attempts `0..j+1` is 429 —
i.e. when the most recent preceding attempt that received an HTTP
response recorded 429 (a transport error leaves the remembered status
unchanged, a 200 response resets it) — and the short 500 ms backoff
otherwise; after exhausting the attempts the last attempt's error is
returned. -/
theorem doWithRetry_backoff_spec (f : Nat → AttemptRes) :
    1 ≤ (doWithRetry f).attemptsMade ∧
    (doWithRetry f).attemptsMade ≤ maxRetries ∧
    (doWithRetry f).sleeps.length + 1 = (doWithRetry f).attemptsMade ∧
    (∀ j, j < (doWithRetry f).sleeps.length →
      (doWithRetry f).sleeps.getD j 0 = backoffMS (statusAfter f (j + 1))) ∧
    (∀ e, (doWithRetry f).result = .error e →
      (doWithRetry f).attemptsMade = maxRetries ∧
      e = some (errOf (f (maxRetries - 1)))) := by
  by_cases hok : attemptOk (f 0) = true
  · obtain ⟨s, b, hb⟩ : ∃ s b, f 0 = AttemptRes.resp s b := by
      cases hf : f 0 with
      | reqErr => rw [hf] at hok; simp [attemptOk] at hok
      | resp s b => exact ⟨s, b, rfl⟩
    rw [hb] at hok
    simp only [attemptOk, Bool.and_eq_true, decide_eq_true_eq] at hok
    obtain ⟨hs, hbtrue⟩ := hok
    subst hs
    subst hbtrue
    have hrun : doWithRetry f = ⟨[], 1, .ok 0⟩ := by
      simp [doWithRetry, retryAux, hb]
    rw [hrun]
    refine ⟨by simp, by simp [maxRetries], by simp, ?_, ?_⟩
    · intro j hj
      simp at hj
    · intro e he
      simp at he
  · have hstep : doWithRetry f =
        ⟨(retryAux 1 (statusUpd 0 (f 0)) (some (errOf (f 0))) [f 1, f 2]).sleeps,
         (retryAux 1 (statusUpd 0 (f 0)) (some (errOf (f 0))) [f 1, f 2]).attemptsMade + 1,
         (retryAux 1 (statusUpd 0 (f 0)) (some (errOf (f 0))) [f 1, f 2]).result⟩ := by
      cases h0 : f 0 with
      | reqErr => simp [doWithRetry, retryAux, statusUpd, errOf, h0]
      | resp s b =>
          by_cases hs : s = 200
          · subst hs
            cases b with
            | true => rw [h0] at hok; simp [attemptOk] at hok
            | false => simp [doWithRetry, retryAux, statusUpd, errOf, h0]
          · simp [doWithRetry, retryAux, statusUpd, errOf, h0, hs]
    obtain ⟨ih1, ih2, ih3, ih4⟩ :=
      retryAux_pos_spec [f 1, f 2] 1 (statusUpd 0 (f 0)) (some (errOf (f 0))) (by omega)
    have hlen2 : ([f 1, f 2] : List AttemptRes).length = 2 := rfl
    rw [hlen2] at ih1
    rw [hstep]
    refine ⟨by simp, ?_, by simp [ih2], ?_, ?_⟩
    · show (retryAux 1 (statusUpd 0 (f 0)) (some (errOf (f 0)))
        [f 1, f 2]).attemptsMade + 1 ≤ maxRetries
      rw [show maxRetries = 3 from rfl]
      omega
    · intro j hj
      have hj' : j < (retryAux 1 (statusUpd 0 (f 0)) (some (errOf (f 0)))
          [f 1, f 2]).sleeps.length := hj
      have hjlt : j < 2 := by
        rw [ih2] at hj'
        omega
      show (retryAux 1 (statusUpd 0 (f 0)) (some (errOf (f 0)))
        [f 1, f 2]).sleeps.getD j 0 = backoffMS (statusAfter f (j + 1))
      rw [ih3 j hj']
      match j, hjlt with
      | 0, _ => rfl
      | 1, _ => rfl
    · intro e he
      obtain ⟨ha, hb2, hc⟩ := ih4 e he
      constructor
      · show (retryAux 1 (statusUpd 0 (f 0)) (some (errOf (f 0)))
          [f 1, f 2]).attemptsMade + 1 = maxRetries
        rw [ha]
        rfl
      · have hval := hc (by simp)
        rw [hval]
        rfl

/-- White space as Go `unicode.IsSpace` reports it: the Unicode
White_Space property (tab through carriage return, space, NEL, NBSP,
OGHAM SPACE MARK, the EN QUAD..HAIR SPACE range, the line and paragraph
separators, NARROW NBSP, MMSP and IDEOGRAPHIC SPACE). -/
def goIsSpace (c : Char) : Bool :=
  decide ((0x09 ≤ c.toNat ∧ c.toNat ≤ 0x0d) ∨ c.toNat = 0x20 ∨ c.toNat = 0x85 ∨
    c.toNat = 0xa0 ∨ c.toNat = 0x1680 ∨ (0x2000 ≤ c.toNat ∧ c.toNat ≤ 0x200a) ∨
    c.toNat = 0x2028 ∨ c.toNat = 0x2029 ∨ c.toNat = 0x202f ∨ c.toNat = 0x205f ∨
    c.toNat = 0x3000)

/-- Go `strings.TrimSpace`: drop leading and trailing white space. -/
def goTrimSpace (s : String) : String :=
  ⟨((s.data.dropWhile goIsSpace).reverse.dropWhile goIsSpace).reverse⟩

/-- Go `FormatCode` (internal/api): trim, map the empty code to
the `"0.000000"` placeholder, prefix `"0."` when the first byte is `'6'`,
`'5'` or `'9'`, else `"1."`.  (Go tests the first byte; since those three
are ASCII and a multi-byte character never starts with an ASCII byte, the
first-character test here agrees with it.) -/
def FormatCode (code : String) : String :=
  match (goTrimSpace code).data with
  | [] => "0.000000"
  | c :: _ =>
      if c = '6' ∨ c = '5' ∨ c = '9' then "0." ++ goTrimSpace code
      else "1." ++ goTrimSpace code

/-- C10: `FormatCode` trims white space and then returns `"0.000000"`
for an empty code, the code prefixed with `"0."` when its first
character is `'6'`, `'5'` or `'9'`, and the code prefixed with `"1."`
otherwise. -/
theorem formatCode_spec (s : String) :
    ((goTrimSpace s).data = [] → FormatCode s = "0.000000") ∧
    (∀ c cs, (goTrimSpace s).data = c :: cs →
      FormatCode s =
        (if c ∈ ['6', '5', '9'] then "0." else "1.") ++ String.mk (c :: cs)) := by
  constructor
  · intro h
    simp [FormatCode, h]
  · intro c cs h
    have heta : goTrimSpace s = ⟨(goTrimSpace s).data⟩ := rfl
    have hs : goTrimSpace s = ⟨c :: cs⟩ := by rw [heta, h]
    simp only [FormatCode, h]
    rw [hs]
    by_cases h6 : c = '6' ∨ c = '5' ∨ c = '9'
    · rw [if_pos h6, if_pos (by simpa using h6)]
    · rw [if_neg h6, if_neg (by simpa using h6)]

/-- Canonical decimal-free rendering of a number (original literal text
is not recoverable from the value embedding; like a JSON number literal
it contains no comma, which is all the comma-splitting kline parser can
observe). -/
def renderNum (q : ℚ) : String :=
  if q.den = 1 then toString q.num else toString q.num ++ "/" ++ toString q.den

mutual

/-- Raw JSON text of a nested value, as `gjson` slices it from the
source (string escaping elided; same bracket/comma structure). -/
def renderRaw : Json → String
  | .null => "null"
  | .bool b => cond b "true" "false"
  | .num q => renderNum q
  | .str s => "\"" ++ s ++ "\""
  | .arr xs => "[" ++ renderSep xs ++ "]"
  | .obj kvs => "\x7b" ++ renderMems kvs ++ "\x7d"

def renderSep : List Json → String
  | [] => ""
  | [x] => renderRaw x
  | x :: y :: xs => renderRaw x ++ "," ++ renderSep (y :: xs)

def renderMems : List (String × Json) → String
  | [] => ""
  | [(k, v)] => "\"" ++ k ++ "\":" ++ renderRaw v
  | (k, v) :: m :: ms =>
      "\"" ++ k ++ "\":" ++ renderRaw v ++ "," ++ renderMems (m :: ms)

end

/-- `gjson` `Result.String()` of an array element: JSON `null` renders
as the empty string, a string as its content, anything else as its raw
text. -/
def goString : Json → String
  | .null => ""
  | .str s => s
  | j => renderRaw j

/-- Digits to a number (callers check `isDigit` first). -/
def digitsToNat (l : List Char) : Nat :=
  l.foldl (fun a c => a * 10 + (c.toNat - 48)) 0

/-- Model of `strconv.ParseFloat` on the plain decimal forms (optional
sign, digits, optional fraction); other spellings (exponents, hex, Inf)
fail.  Call sites discard the error, so a failure contributes `0`. -/
def parseFloatGo (s : String) : ℚ :=
  let signRest : ℚ × List Char :=
    match s.data with
    | '+' :: r => (1, r)
    | '-' :: r => (-1, r)
    | r => (1, r)
  let sign := signRest.1
  let rest := signRest.2
  let intPart := rest.takeWhile (fun c => c ≠ '.')
  let restDot := rest.dropWhile (fun c => c ≠ '.')
  match restDot with
  | [] =>
      if !intPart.isEmpty && intPart.all Char.isDigit then
        sign * (digitsToNat intPart : ℚ)
      else 0
  | _ :: frac =>
      if !(intPart.isEmpty && frac.isEmpty) && intPart.all Char.isDigit &&
          frac.all Char.isDigit then
        sign * ((digitsToNat intPart : ℚ) +
          (digitsToNat frac : ℚ) / ((10 : ℚ) ^ frac.length))
      else 0

/-- Model of `strconv.ParseInt` base 10 (error discarded at the call
site, contributing `0`). -/
def parseIntGo (s : String) : Int :=
  match s.data with
  | '+' :: r => if !r.isEmpty && r.all Char.isDigit then (digitsToNat r : Int) else 0
  | '-' :: r => if !r.isEmpty && r.all Char.isDigit then -(digitsToNat r : Int) else 0
  | r => if !r.isEmpty && r.all Char.isDigit then (digitsToNat r : Int) else 0

/-- One kline entry of `parseKlinesGJSON`'s loop: skip when blank after
trimming or when fewer than 5 comma-separated fields; otherwise date,
open and close come from fields 0-2 and volume from field 5 when
present (misparsed numerics become 0 since Go discards the errors). -/
def parseKlineElem (v : Json) : Option KLine :=
  let s := goTrimSpace (goString v)
  if s = "" then none
  else
    let parts := s.splitOn ","
    if parts.length < 5 then none
    else some ⟨parts.getD 0 "", parseFloatGo (parts.getD 1 ""),
      parseFloatGo (parts.getD 2 ""),
      if 6 ≤ parts.length then parseIntGo (parts.getD 5 "") else 0⟩

/-- `gjson.GetBytes(body, "data.klines")`: the first `data` member must
be an object and its first `klines` member is the result; a path through
anything else yields no result. -/
def gjsonDataKlines (body : Json) : Option Json :=
  match body with
  | .obj kvs =>
      match jlookupFirst kvs "data" with
      | some (.obj dkvs) => jlookupFirst dkvs "klines"
      | _ => none
  | _ => none

/-- Go `parseKlinesGJSON`: error when `data.klines` is missing or not an
array; otherwise parse the entries, skipping blank or short ones, and
error when nothing parseable remains. -/
def parseKlinesGJSON (body : Json) (code : String) :
    Except String (List KLine) :=
  match gjsonDataKlines body with
  | some (.arr arr) =>
      let out := arr.filterMap parseKlineElem
      if out.isEmpty then .error ("api: no klines for " ++ code)
      else .ok out
  | _ => .error ("api: no data.klines for " ++ code)

/-- Go `GetHisKlines` with the transport call abstracted as its outcome:
the guard on an empty code or non-positive count fires before any
request (the same error results for every transport outcome); a
transport error propagates; otherwise the body is parsed.  (The
`count > 1000` cap only shapes the request URL, invisible here.) -/
def GetHisKlines (code : String) (count : Int) (resp : Except String Json) :
    Except String (List KLine) :=
  if code = "" ∨ count ≤ 0 then .error "invalid code or count"
  else
    match resp with
    | .error e => .error e
    | .ok body => parseKlinesGJSON body code

/-- Response envelope whose `data.klines` is the given array. -/
def mkKlinesBody (arr : List Json) : Json :=
  .obj [("data", .obj [("klines", .arr arr)])]

/-- C9: `GetHisKlines` never succeeds with an empty bar list — an empty
code or non-positive count errors before any request (the same error for
every transport outcome); a body without an array at `data.klines`
errors; a kline string that is blank or has fewer than 5
comma-separated fields is skipped silently (removing it from the array
leaves the result unchanged); and a successful result is never empty. -/
theorem getHisKlines_error_spec (code : String) (count : Int)
    (resp : Except String Json) :
    (code = "" ∨ count ≤ 0 →
      GetHisKlines code count resp = .error "invalid code or count") ∧
    (∀ body, resp = .ok body →
      (∀ arr, gjsonDataKlines body ≠ some (.arr arr)) →
      ∃ e, GetHisKlines code count resp = .error e) ∧
    (∀ out, GetHisKlines code count resp = .ok out → out ≠ []) ∧
    (∀ pre s post code2,
      goTrimSpace s = "" ∨ ((goTrimSpace s).splitOn ",").length < 5 →
      parseKlinesGJSON (mkKlinesBody (pre ++ Json.str s :: post)) code2 =
        parseKlinesGJSON (mkKlinesBody (pre ++ post)) code2) := by
  refine ⟨?_, ?_, ?_, ?_⟩
  · intro h
    simp [GetHisKlines, h]
  · intro body hresp hnoarr
    by_cases hg : code = "" ∨ count ≤ 0
    · exact ⟨"invalid code or count", by simp [GetHisKlines, hg]⟩
    · subst hresp
      cases hk : gjsonDataKlines body with
      | none =>
          exact ⟨"api: no data.klines for " ++ code,
            by simp [GetHisKlines, hg, parseKlinesGJSON, hk]⟩
      | some j =>
          cases j with
          | arr arr => exact absurd hk (hnoarr arr)
          | null =>
              exact ⟨"api: no data.klines for " ++ code,
                by simp [GetHisKlines, hg, parseKlinesGJSON, hk]⟩
          | bool b =>
              exact ⟨"api: no data.klines for " ++ code,
                by simp [GetHisKlines, hg, parseKlinesGJSON, hk]⟩
          | num q =>
              exact ⟨"api: no data.klines for " ++ code,
                by simp [GetHisKlines, hg, parseKlinesGJSON, hk]⟩
          | str s =>
              exact ⟨"api: no data.klines for " ++ code,
                by simp [GetHisKlines, hg, parseKlinesGJSON, hk]⟩
          | obj kvs =>
              exact ⟨"api: no data.klines for " ++ code,
                by simp [GetHisKlines, hg, parseKlinesGJSON, hk]⟩
  · intro out hout
    by_cases hg : code = "" ∨ count ≤ 0
    · simp [GetHisKlines, hg] at hout
    · cases resp with
      | error e => simp [GetHisKlines, hg] at hout
      | ok body =>
          simp only [GetHisKlines, hg, if_false, ite_false] at hout
          cases hk : gjsonDataKlines body with
          | none => simp [parseKlinesGJSON, hk] at hout
          | some j =>
              cases j with
              | arr arr =>
                  by_cases he : (arr.filterMap parseKlineElem).isEmpty
                  · simp [parseKlinesGJSON, hk, he] at hout
                  · simp [parseKlinesGJSON, hk, he] at hout
                    intro hnil
                    subst hnil
                    simp [hout] at he
              | null => simp [parseKlinesGJSON, hk] at hout
              | bool b => simp [parseKlinesGJSON, hk] at hout
              | num q => simp [parseKlinesGJSON, hk] at hout
              | str s => simp [parseKlinesGJSON, hk] at hout
              | obj kvs => simp [parseKlinesGJSON, hk] at hout
  · intro pre s post code2 hskip
    have helem : parseKlineElem (Json.str s) = none := by
      rcases hskip with h1 | h2
      · simp [parseKlineElem, goString, h1]
      · by_cases h1 : goTrimSpace s = ""
        · simp [parseKlineElem, goString, h1]
        · simp [parseKlineElem, goString, h1, h2]
    have hk : ∀ arr, gjsonDataKlines (mkKlinesBody arr) = some (.arr arr) := by
      intro arr
      rfl
    simp [parseKlinesGJSON, hk, List.filterMap_append, List.filterMap_cons, helem]

/-- One page interaction of a paginator run (ghost trace). -/
inductive PageStep where
  | fetchFail (page : Nat) (e : String)
  | decoded (page : Nat) (total : Int) (count : Nat) (accLen : Nat)
      (decErr : Option String)
  deriving Repr, DecidableEq

/-- Trace of a whole pagination: the page steps in order and the final
result (accumulated records, or the aborting error with no records). -/
structure PageRun (α : Type) where
  steps : List PageStep
  result : Except String (List α)

/-- The shared pagination loop of `GetAllStocks` and `GetMainBoardQuotes`
(their bodies differ only in decoder and URL), with the transport
abstracted as the per-page response and a fuel bound standing in for the
unbounded Go `for` (`none` marks fuel exhaustion; every terminating Go
run is `some`).  A transport error aborts with that error; a decode
error other than end-of-stream aborts (end-of-stream cannot arise at the
value level); otherwise the loop stops exactly on `count == 0`,
`total <= len(acc)` or `count < listPageSize`, else continues with the
next page number. -/
def paginate {α : Type} (dec : Json → List α → DecodeResult α)
    (server : Nat → Except String Json) :
    Nat → Nat → List α → Option (PageRun α)
  | 0, _, _ => none
  | fuel + 1, page, acc =>
      match server page with
      | .error e => some ⟨[.fetchFail page e], .error e⟩
      | .ok body =>
          let r := dec body acc
          let step := PageStep.decoded page r.total r.count r.list.length r.error
          match r.error with
          | some e => some ⟨[step], .error e⟩
          | none =>
              if r.count = 0 then some ⟨[step], .ok r.list⟩
              else if r.total ≤ (r.list.length : Int) ∨ r.count < listPageSize then
                some ⟨[step], .ok r.list⟩
              else
                match paginate dec server fuel (page + 1) r.list with
                | none => none
                | some run => some ⟨step :: run.steps, run.result⟩

/-- Go `GetAllStocks`: brief decoder, page numbers from 1, empty
accumulator. -/
def GetAllStocks (server : Nat → Except String Json) (fuel : Nat) :
    Option (PageRun StockBrief) :=
  paginate (fun j l => decodeStockListStream j l) server fuel 1 []

/-- Go `GetMainBoardQuotes`: quote decoder, page numbers from 1, empty
accumulator. -/
def GetMainBoardQuotes (server : Nat → Except String Json) (fuel : Nat) :
    Option (PageRun StockQuote) :=
  paginate (fun j l => decodeQuoteListStream j l) server fuel 1 []

/-- The page number a step touched. -/
def stepPage : PageStep → Nat
  | .fetchFail p _ => p
  | .decoded p _ _ _ _ => p

/-- A non-final step: an error-free decode satisfying no stop condition
(non-zero count, total not reached, full page). -/
def continueStep : PageStep → Bool
  | .decoded _ t c l none =>
      !(decide (c = 0)) && !(decide (t ≤ (l : Int)) || decide (c < listPageSize))
  | _ => false

/-- What the final step forces the result to be: a transport or decode
error carries exactly that error (and, by the shape of `Except`, no
records); an error-free decode satisfies a stop condition and the result
holds the accumulator of that step's recorded length. -/
def lastStepSpec {α : Type} : PageStep → Except String (List α) → Prop
  | .fetchFail _ e, .error e' => e' = e
  | .decoded _ _ _ _ (some e), .error e' => e' = e
  | .decoded _ t c l none, .ok lst =>
      (c = 0 ∨ t ≤ (l : Int) ∨ c < listPageSize) ∧ lst.length = l
  | _, _ => False

theorem paginate_spec {α : Type} (dec : Json → List α → DecodeResult α)
    (server : Nat → Except String Json) :
    ∀ fuel page acc run, paginate dec server fuel page acc = some run →
      run.steps.map stepPage = List.range' page run.steps.length ∧
      run.steps ≠ [] ∧
      (∀ s ∈ run.steps.dropLast, continueStep s = true) ∧
      (∀ s, run.steps.getLast? = some s → lastStepSpec s run.result) := by
  intro fuel
  induction fuel with
  | zero => intro page acc run h; simp [paginate] at h
  | succ fuel ih =>
      intro page acc run h
      cases hsv : server page with
      | error e =>
          simp only [paginate, hsv] at h
          injection h with h
          subst h
          refine ⟨rfl, by simp, by simp, ?_⟩
          intro s hs
          simp at hs
          subst hs
          exact rfl
      | ok body =>
          simp only [paginate, hsv] at h
          cases herr : (dec body acc).error with
          | some e =>
              simp only [herr] at h
              injection h with h
              subst h
              refine ⟨rfl, by simp, by simp, ?_⟩
              intro s hs
              simp at hs
              subst hs
              exact rfl
          | none =>
              simp only [herr] at h
              by_cases hc0 : (dec body acc).count = 0
              · rw [if_pos hc0] at h
                injection h with h
                subst h
                refine ⟨rfl, by simp, by simp, ?_⟩
                intro s hs
                simp at hs
                subst hs
                exact ⟨Or.inl hc0, rfl⟩
              · rw [if_neg hc0] at h
                by_cases hstop : (dec body acc).total ≤
                    ((dec body acc).list.length : Int) ∨
                    (dec body acc).count < listPageSize
                · rw [if_pos hstop] at h
                  injection h with h
                  subst h
                  refine ⟨rfl, by simp, by simp, ?_⟩
                  intro s hs
                  simp at hs
                  subst hs
                  exact ⟨Or.inr hstop, rfl⟩
                · rw [if_neg hstop] at h
                  cases hrec : paginate dec server fuel (page + 1)
                      (dec body acc).list with
                  | none => rw [hrec] at h; exact Option.noConfusion h
                  | some run' =>
                      rw [hrec] at h
                      injection h with h
                      subst h
                      obtain ⟨ih1, ih2, ih3, ih4⟩ :=
                        ih (page + 1) (dec body acc).list run' hrec
                      refine ⟨?_, by simp, ?_, ?_⟩
                      · simp only [List.map_cons, List.length_cons, ih1,
                          List.range'_succ]
                        rfl
                      · intro s hs
                        rw [List.dropLast_cons_of_ne_nil ih2] at hs
                        rcases List.mem_cons.mp hs with hs | hs
                        · subst hs
                          simp only [continueStep, Bool.and_eq_true,
                            Bool.not_eq_true', decide_eq_false_iff_not,
                            Bool.or_eq_false_iff, decide_eq_true_eq]
                          have hns := not_or.mp hstop
                          exact ⟨by simpa using hc0, ⟨hns.1, hns.2⟩⟩
                        · exact ih3 s hs
                      · intro s hs
                        apply ih4
                        cases hsteps : run'.steps with
                        | nil => exact absurd hsteps ih2
                        | cons b l =>
                            rw [hsteps] at hs
                            rw [List.getLast?_cons_cons] at hs
                            exact hs

/-- C5: every terminating run of the paginators requests consecutive
page numbers starting at 1; every page before the last decodes without
error and triggers no stop condition; and the last page either aborts
the whole call with the transport or decode error (returning that error
and no records), or satisfies exactly one of the stop conditions —
zero records, accumulated count reaching the server-reported total, or
fewer records than the page size — with the accumulated records
returned. -/
theorem paginator_stop_spec (serverS serverQ : Nat → Except String Json)
    (fuelS fuelQ : Nat) (runS : PageRun StockBrief) (runQ : PageRun StockQuote)
    (hS : GetAllStocks serverS fuelS = some runS)
    (hQ : GetMainBoardQuotes serverQ fuelQ = some runQ) :
    (runS.steps.map stepPage = List.range' 1 runS.steps.length ∧
     runS.steps ≠ [] ∧
     (∀ s ∈ runS.steps.dropLast, continueStep s = true) ∧
     (∀ s, runS.steps.getLast? = some s → lastStepSpec s runS.result)) ∧
    (runQ.steps.map stepPage = List.range' 1 runQ.steps.length ∧
     runQ.steps ≠ [] ∧
     (∀ s ∈ runQ.steps.dropLast, continueStep s = true) ∧
     (∀ s, runQ.steps.getLast? = some s → lastStepSpec s runQ.result)) :=
  ⟨paginate_spec (fun j l => decodeStockListStream j l) serverS fuelS 1 [] runS hS,
   paginate_spec (fun j l => decodeQuoteListStream j l) serverQ fuelQ 1 [] runQ hQ⟩

/-- One-page server used to witness C5: total 1, one record, so the
first page stops pagination (`total <= len(acc)`). -/
def c5Body : Json :=
  mkListResp 1 (.arr [.obj [("f12", .str "000001"), ("f14", .str "A")]])

def c5Server : Nat → Except String Json := fun _ => .ok c5Body

def c5RunS : PageRun StockBrief :=
  ⟨[.decoded 1 1 1 1 none], .ok [{ code := "000001", name := "A" }]⟩

def c5RunQ : PageRun StockQuote :=
  ⟨[.decoded 1 1 1 1 none],
   .ok [{ code := "000001", name := "A", mainBusiness := "", price := 0,
          changePct := 0, amount := 0, volumeRatioVal := 0, turnoverRate := 0,
          marketCap := 0, pe := 0, netInflow := 0, mainForceInflow := 0,
          mainForceOutflow := 0 }]⟩

theorem paginator_stop_spec_witness :
    GetAllStocks c5Server 1 = some c5RunS ∧
    GetMainBoardQuotes c5Server 1 = some c5RunQ ∧
    ((c5RunS.steps.map stepPage = List.range' 1 c5RunS.steps.length ∧
      c5RunS.steps ≠ [] ∧
      (∀ s ∈ c5RunS.steps.dropLast, continueStep s = true) ∧
      (∀ s, c5RunS.steps.getLast? = some s → lastStepSpec s c5RunS.result)) ∧
     (c5RunQ.steps.map stepPage = List.range' 1 c5RunQ.steps.length ∧
      c5RunQ.steps ≠ [] ∧
      (∀ s ∈ c5RunQ.steps.dropLast, continueStep s = true) ∧
      (∀ s, c5RunQ.steps.getLast? = some s → lastStepSpec s c5RunQ.result))) :=
  ⟨rfl, rfl,
    paginator_stop_spec c5Server c5Server 1 1 c5RunS c5RunQ rfl rfl⟩

end StockMaxWin
